import Mathlib

/-!
Verification development for the multi-angle camera module
(`src/unnamed/part_001` of the repository).  The definitions below are a
shallow embedding of the TypeScript source: JavaScript numbers are modelled
as rationals, JSON values as an inductive `JVal`, thrown exceptions as
explicit error results, and the cooperative async scheduler of `runQueue`
as a small-step transition relation.
-/

namespace Cam

/-! ## JSON values (the shape of `res.json()` payloads)

`jnull` models both JavaScript `null` and `undefined`: the source only ever
distinguishes them through optional chaining, truthiness and `??`, which
treat the two alike. -/

inductive JVal where
  | jnull
  | jbool (b : Bool)
  | jnum (q : ℚ)
  | jstr (s : String)
  | jarr (items : List JVal)
  | jobj (fields : List (String × JVal))

/-- JavaScript truthiness of a value. -/
def truthy : JVal → Bool
  | .jnull => false
  | .jbool b => b
  | .jnum q => q != 0
  | .jstr s => s != ""
  | .jarr _ => true
  | .jobj _ => true

/-- `a?.k` — property access through optional chaining; reading a property
of a non-object (or a missing property) yields `undefined`, i.e. `jnull`. -/
def getField (v : JVal) (key : String) : JVal :=
  match v with
  | .jobj fields =>
      match fields.find? (fun p => p.1 == key) with
      | some p => p.2
      | none => .jnull
  | _ => .jnull

/-- `a || b` — JavaScript logical or. -/
def jor (a b : JVal) : JVal := if truthy a then a else b

/-- `a ?? b` — JavaScript nullish coalescing. -/
def jnn (a b : JVal) : JVal :=
  match a with
  | .jnull => b
  | _ => a

/-- `String(x)` coercion, as used on status strings and error messages.
Arrays are stringified by joining one level of atomic items with commas
(the source only ever coerces strings here, so deeper shapes are not
exercised). -/
def jsAtomString : JVal → String
  | .jnull => "null"
  | .jbool true => "true"
  | .jbool false => "false"
  | .jnum q => toString q
  | .jstr s => s
  | .jarr _ => ""
  | .jobj _ => "[object Object]"

def jsStringCoerce : JVal → String
  | .jarr items => String.intercalate "," (items.map jsAtomString)
  | v => jsAtomString v

/-- `pre` read off the front of `chars`, character by character. -/
def charsLeadWith : List Char → List Char → Bool
  | [], _ => true
  | _ :: _, [] => false
  | a :: as, b :: bs => a == b && charsLeadWith as bs

/-- `s.startsWith(pre)`. -/
def jsStartsWith (s pre : String) : Bool := charsLeadWith pre.data s.data

/-- `s.toLowerCase()`. -/
def jsToLower (s : String) : String := ⟨s.data.map Char.toLower⟩

/-! ## Preset tables (lines 24-57 of the source)

`ANGLE_PRESETS`, `ELEVATION_PRESETS` and `DISTANCE_PRESETS` are the numeric
keys of the corresponding maps sorted ascending, which for these literals is
exactly the declaration order below. -/

def AZIMUTH_MAP : List (ℚ × String) :=
  [(0, "front view"), (45, "front-right quarter view"), (90, "right side view"),
   (135, "back-right quarter view"), (180, "back view"), (225, "back-left quarter view"),
   (270, "left side view"), (315, "front-left quarter view")]

def ELEVATION_MAP : List (ℚ × String) :=
  [(-30, "low-angle shot"), (0, "eye-level shot"), (30, "elevated shot"), (60, "high-angle shot")]

def DISTANCE_MAP : List (ℚ × String) :=
  [(3/5, "close-up"), (1, "medium shot"), (7/5, "wide shot")]

def ANGLE_PRESETS : List ℚ := AZIMUTH_MAP.map Prod.fst

def ANGLE_COUNT : ℕ := ANGLE_PRESETS.length

def ELEVATION_PRESETS : List ℚ := ELEVATION_MAP.map Prod.fst

def DISTANCE_PRESETS : List ℚ := DISTANCE_MAP.map Prod.fst

def MAX_PARALLEL : ℤ := 3

/-! ## snapToNearest (lines 84-85)

`options.reduce((nearest, option) => Math.abs(option - value) < Math.abs(nearest - value) ? option : nearest)`.
`reduce` with no seed throws on an empty array (modelled by `none`) and
otherwise folds from the first element. -/

def snapF (value nearest option : ℚ) : ℚ :=
  if |option - value| < |nearest - value| then option else nearest

def snapToNearest (value : ℚ) : List ℚ → Option ℚ
  | [] => none
  | a :: rest => some (rest.foldl (snapF value) a)

/-! ## wrapIndex / findNearestImageIndex (lines 135-150)

JavaScript `%` is truncating remainder, i.e. `Int.tmod`. -/

def wrapIndex (value : ℤ) (length : ℕ) : ℕ :=
  if length = 0 then 0
  else (((value.tmod (length : ℤ)) + (length : ℤ)).tmod (length : ℤ)).toNat

inductive Status where
  | queued
  | running
  | done
  | error
deriving DecidableEq, Repr

structure AngleResult where
  id : String
  azimuth : ℚ
  elevation : ℚ
  distance : ℚ
  status : Status
  image : Option String := none
  seed : Option ℚ := none
  error : Option String := none
deriving DecidableEq, Repr

/-- Truthiness of `item?.image` for an entry that may be out of range. -/
def hasImageAt (items : List AngleResult) (index : ℤ) : Bool :=
  if h : 0 ≤ index ∧ index.toNat < items.length then
    match (items.get ⟨index.toNat, h.2⟩).image with
    | some s => s != ""
    | none => false
  else false

def findNearestImageIndex (index : ℤ) (items : List AngleResult) : ℤ :=
  if items.length = 0 then -1
  else if hasImageAt items index then index
  else
    match (List.range' 1 (items.length - 1)).findSome? (fun offset =>
      let right := wrapIndex (index + (offset : ℤ)) items.length
      let left := wrapIndex (index - (offset : ℤ)) items.length
      if hasImageAt items (right : ℤ) then some ((right : ℤ))
      else if hasImageAt items (left : ℤ) then some ((left : ℤ))
      else none) with
    | some r => r
    | none => -1

/-! ## normalizeImage / extractImageList / extractJobId (lines 101-133) -/

def normalizeImage (value : JVal) : Option String :=
  match value with
  | .jstr s =>
      if s = "" then none
      else if jsStartsWith s "data:" || jsStartsWith s "http" then some s
      else some ("data:image/png;base64," ++ s)
  | _ => none

/-- `normalizeImage(item?.image ?? item?.url ?? item?.data ?? item)`. -/
def normalizeItem (item : JVal) : Option String :=
  normalizeImage (jnn (getField item "image")
    (jnn (getField item "url") (jnn (getField item "data") item)))

/-- The `for`-loop over `listCandidates`: the first array candidate whose
normalized-and-filtered image list is non-empty wins. -/
def listHit : List JVal → Option (List String)
  | [] => none
  | c :: rest =>
      match c with
      | .jarr items =>
          let normalized := items.filterMap normalizeItem
          if normalized.isEmpty then listHit rest else some normalized
      | _ => listHit rest

/-- The `for`-loop over `singleCandidates`. -/
def singleHit : List JVal → Option String
  | [] => none
  | c :: rest =>
      match normalizeImage c with
      | some s => some s
      | none => singleHit rest

def extractImageList (payload : JVal) : List String :=
  let output := jnn (getField payload "output") (jnn (getField payload "result") payload)
  match listHit [getField output "images", getField output "outputs",
      getField output "output_images", getField output "data", getField payload "images"] with
  | some l => l
  | none =>
      match singleHit [getField output "image", getField output "output_image",
          getField output "output_image_base64", getField output "message",
          getField output "data", getField payload "image", getField payload "data"] with
      | some s => [s]
      | none => []

/-- `payload?.id || payload?.jobId || payload?.job_id || payload?.output?.id`. -/
def extractJobId (payload : JVal) : JVal :=
  jor (getField payload "id") (jor (getField payload "jobId")
    (jor (getField payload "job_id") (getField (getField payload "output") "id")))

/-! ## Job Submitter: submitAngle (lines 218-251)

One HTTP exchange is modelled by the response the environment would give;
the second component of the result lists the request bodies that were
actually sent (so "no network call" is the statement that this list is
empty).  Thrown `Error`s become `Except.error` carrying the message. -/

/-- An HTTP response: `ok` flag plus the body after `res.json().catch(() => ({}))`. -/
structure HttpResp where
  ok : Bool
  body : JVal

structure RenderParams where
  guidanceScale : ℚ
  steps : ℚ
  width : ℚ
  height : ℚ
  seed : ℚ
  randomizeSeed : Bool

inductive SubmitOutcome where
  | images (l : List String)
  | job (id : JVal)

/-- `data?.error || data?.message || fallback`, coerced to the `Error` message string. -/
def httpErrMessage (data : JVal) (fallback : String) : String :=
  jsStringCoerce (jor (getField data "error") (jor (getField data "message") (.jstr fallback)))

def submitInput (anglePrompt payload : String) (p : RenderParams) : JVal :=
  .jobj [("image_base64", .jstr payload), ("prompt", .jstr anglePrompt),
    ("guidance_scale", .jnum p.guidanceScale), ("num_inference_steps", .jnum p.steps),
    ("width", .jnum p.width), ("height", .jnum p.height), ("seed", .jnum p.seed),
    ("randomize_seed", .jbool p.randomizeSeed), ("worker_mode", .jstr "comfyui")]

def submitAngle (anglePrompt payload : String) (p : RenderParams) (res : HttpResp) :
    Except String SubmitOutcome × List JVal :=
  if payload = "" then (.error "Image is missing.", [])
  else
    let req := JVal.jobj [("input", submitInput anglePrompt payload p)]
    let data := res.body
    if res.ok = false then (.error (httpErrMessage data "Request failed."), [req])
    else
      let images := extractImageList data
      if images.isEmpty = false then (.ok (.images images), [req])
      else
        let jobId := extractJobId data
        if truthy jobId then (.ok (.job jobId), [req])
        else (.error "Missing job id.", [req])

/-! ## Job Poller: pollJob (lines 253-273)

The status endpoint is an oracle `resp : ℕ → HttpResp` giving the response
to the `i`-th status request, and `cur : ℕ → ℕ` gives the value of
`runIdRef.current` observed at the top of the `i`-th loop iteration.  The
`await wait(...)` delay has no observable effect in the model.  The second
component counts the status requests performed. -/

inductive PollOutcome where
  | cancelled
  | done (images : List String)
  | thrown (msg : String)
deriving DecidableEq, Repr

/-- `String(data?.status || data?.state || '').toLowerCase()`. -/
def statusOf (data : JVal) : String :=
  jsToLower (jsStringCoerce (jor (getField data "status") (jor (getField data "state") (.jstr ""))))

/-- Does the character list contain `fail` as a contiguous run? -/
def hasFailChars : List Char → Bool
  | 'f' :: 'a' :: 'i' :: 'l' :: _ => true
  | _ :: rest => hasFailChars rest
  | [] => false

/-- `status.includes('fail')` — substring containment. -/
def hasFail (s : String) : Bool := hasFailChars s.data

def pollLoop (resp : ℕ → HttpResp) (cur : ℕ → ℕ) (runId : ℕ) :
    ℕ → ℕ → ℕ → PollOutcome × ℕ
  | _, attempts, 0 => (.thrown "Render timed out.", attempts)
  | i, attempts, fuel + 1 =>
      if cur i ≠ runId then (.cancelled, attempts)
      else if (resp i).ok = false then
        (.thrown (httpErrMessage (resp i).body "Status request failed."), attempts + 1)
      else if hasFail (statusOf (resp i).body) then
        (.thrown (jsStringCoerce (jor (getField (resp i).body "error") (.jstr "Render failed."))),
          attempts + 1)
      else if (extractImageList (resp i).body).isEmpty = false then
        (.done (extractImageList (resp i).body), attempts + 1)
      else pollLoop resp cur runId (i + 1) (attempts + 1) fuel

def pollJob (resp : ℕ → HttpResp) (cur : ℕ → ℕ) (runId : ℕ) : PollOutcome × ℕ :=
  pollLoop resp cur runId 0 0 120

/-! ## Bounded Task Runner: runQueue (lines 64-75)

```
const runQueue = async (tasks, concurrency) => {
  let cursor = 0
  const runners = Array.from({ length: Math.max(1, concurrency) }, async () => {
    while (true) {
      const index = cursor
      cursor += 1
      if (index >= tasks.length) return
      await tasks[index]()
    }
  })
  await Promise.all(runners)
}
```

Cooperative single-threaded scheduling: the only suspension point inside a
worker loop is the `await tasks[index]()`, so reading the cursor, bumping
it and testing the bound happen atomically, and an interleaving is fully
described by which worker claims next and which running task finishes
next.  Workers are interchangeable, so the global state is the cursor, the
count of workers that are between awaits (idle, about to claim), the
multiset of task indices currently being awaited, the count of workers
that have returned, and the multiset of task indices whose task has
completed. -/

structure QState where
  cursor : ℕ
  idle : ℕ
  running : Multiset ℕ
  done : ℕ
  finished : Multiset ℕ
deriving DecidableEq

/-- `Math.max(1, concurrency)` — the number of workers spawned. -/
def workers (c : ℤ) : ℕ := (max 1 c).toNat

def initQ (c : ℤ) : QState := ⟨0, workers c, 0, 0, 0⟩

/-- One scheduler step of `runQueue` over `n = tasks.length` tasks. -/
inductive QStep (n : ℕ) : QState → QState → Prop
  | claim_run {s : QState} (hidle : 0 < s.idle) (hlt : s.cursor < n) :
      QStep n s ⟨s.cursor + 1, s.idle - 1, s.cursor ::ₘ s.running, s.done, s.finished⟩
  | claim_exit {s : QState} (hidle : 0 < s.idle) (hge : n ≤ s.cursor) :
      QStep n s ⟨s.cursor + 1, s.idle - 1, s.running, s.done + 1, s.finished⟩
  | finish {s : QState} (i : ℕ) (hmem : i ∈ s.running) :
      QStep n s ⟨s.cursor, s.idle + 1, s.running.erase i, s.done, i ::ₘ s.finished⟩

/-- Invariant of every reachable `runQueue` state with `w` workers:
worker conservation, done-workers count the claims past the end, and the
claimed task indices are exactly `0, …, min cursor n - 1`, each once,
split between finished and currently running. -/
def QInv (n w : ℕ) (s : QState) : Prop :=
  s.idle + Multiset.card s.running + s.done = w ∧
  s.done = s.cursor - n ∧
  s.finished + s.running = Multiset.range (min s.cursor n)

theorem qinv_init (n : ℕ) (c : ℤ) : QInv n (workers c) (initQ c) := by
  refine ⟨by simp [initQ], by simp [initQ], ?_⟩
  simp [initQ, Multiset.range_zero]

theorem qinv_step {n w : ℕ} {s s' : QState} (hs : QStep n s s') (hinv : QInv n w s) :
    QInv n w s' := by
  obtain ⟨h1, h2, h3⟩ := hinv
  cases hs with
  | claim_run hidle hlt =>
      refine ⟨?_, ?_, ?_⟩
      · simp only [Multiset.card_cons]
        omega
      · simp only
        omega
      · simp only
        rw [Multiset.add_cons, h3, min_eq_left (by omega), min_eq_left (by omega),
          Multiset.range_succ]
  | claim_exit hidle hge =>
      refine ⟨by simp only; omega, by simp only; omega, ?_⟩
      simp only
      rw [h3]
      congr 1
      omega
  | finish i hmem =>
      have hcard : 0 < Multiset.card s.running := Multiset.card_pos.mpr (by
        intro h0
        rw [h0] at hmem
        exact absurd hmem (Multiset.not_mem_zero i))
      refine ⟨?_, by simpa using h2, ?_⟩
      · simp only [Multiset.card_erase_of_mem hmem, Nat.pred_eq_sub_one]
        omega
      · simp only
        rw [Multiset.cons_add, ← Multiset.add_cons, Multiset.cons_erase hmem, h3]

theorem qinv_reachable {n : ℕ} {c : ℤ} {s : QState}
    (h : Relation.ReflTransGen (QStep n) (initQ c) s) : QInv n (workers c) s := by
  induction h with
  | refl => exact qinv_init n c
  | tail hab hbc ih => exact qinv_step hbc ih

theorem workers_pos (c : ℤ) : 1 ≤ workers c := by
  have h1 : (1 : ℤ) ≤ max 1 c := le_max_left _ _
  unfold workers
  omega

/-! ## Render Orchestrator state (the Camera component, lines 152-344)

The shared mutable state the async continuations touch: `runId` is
`runIdRef.current`, the rest are the React state cells the continuations
write.  `elevation`, `distance` and `prompt` are the slider values read
when a run starts. -/

structure AngleView where
  azimuth : ℚ
  elevation : ℚ
  distance : ℚ
deriving DecidableEq, Repr

structure AppState where
  runId : ℕ
  results : List AngleResult
  selectedIndex : ℕ
  statusMessage : String
  isRunning : Bool
  elevation : ℚ
  distance : ℚ
  prompt : String
deriving DecidableEq, Repr

/-- `(item, itemIndex) => ...` mapping, with the running index made explicit. -/
def mapWithIndex (f : ℕ → AngleResult → AngleResult) : ℕ → List AngleResult → List AngleResult
  | _, [] => []
  | k, x :: xs => f k x :: mapWithIndex f (k + 1) xs

/-- Truthiness of `results[prev]?.image`. -/
def resultsImageTruthy (rs : List AngleResult) (prev : ℕ) : Bool :=
  match rs.get? prev with
  | some r =>
      match r.image with
      | some s => s != ""
      | none => false
  | none => false

/-- `applyImageAt` (lines 203-216): mark entry `index` done with the image,
and move the selection to `index` unless it already points at an entry that
has an image (the `results` read by the selection updater is the list as it
was before this update). -/
def applyImageAt (index : ℕ) (image : String) (s : AppState) : AppState :=
  { s with
    results := mapWithIndex (fun j item =>
      { item with
        status := if j = index then .done else item.status,
        image := if j = index then some image else item.image }) 0 s.results,
    selectedIndex :=
      if s.selectedIndex = index then s.selectedIndex
      else if resultsImageTruthy s.results s.selectedIndex = false then index
      else s.selectedIndex }

/-- `buildViews` (lines 198-201). -/
def buildViews (s : AppState) : List AngleView :=
  ANGLE_PRESETS.map (fun a => ⟨a, s.elevation, s.distance⟩)

/-- The fresh `AngleResult` records built by `startBatch`; `makeId()` is
nondeterministic, so the supply of generated ids is a parameter `ids`
indexed by the position of the `map` callback invocation. -/
def makeResults (ids : ℕ → String) : ℕ → List AngleView → List AngleResult
  | _, [] => []
  | k, v :: rest =>
      { id := ids k, azimuth := v.azimuth, elevation := v.elevation,
        distance := v.distance, status := .queued } :: makeResults ids (k + 1) rest

/-- The synchronous prefix of `startBatch` (lines 275-292): the early return
on an empty payload, the epoch bump, and the state resets performed before
the task list is built and handed to `runQueue`. -/
def startBatchInit (payload : String) (ids : ℕ → String) (s : AppState) : AppState :=
  if payload = "" then s
  else
    { s with
      runId := s.runId + 1,
      isRunning := true,
      statusMessage := "Rendering " ++ toString ANGLE_COUNT ++ " angles...",
      results := makeResults ids 0 (buildViews s),
      selectedIndex := 0 }

/-- The asynchronous continuations of a run's task (lines 295-341), each of
which begins with the `runIdRef.current !== runId` epoch check:
the resumption at the head of a task, the resumption after `submitAngle`
returned inline images, the resumption after `pollJob` resolved, the
`catch` handler, and the two continuations after `runQueue` joins. -/
inductive Cont where
  | taskStart (index : ℕ)
  | submitImages (index : ℕ) (image : String)
  | pollResolved (index : ℕ) (isDone : Bool) (images : List String)
  | taskError (index : ℕ) (message : String)
  | queueDone
  | queueFinally

def runCont (c : Cont) (captured : ℕ) (s : AppState) : AppState :=
  if s.runId = captured then
    match c with
    | .taskStart i =>
        { s with results := mapWithIndex (fun j item =>
            if j = i then { item with status := .running, error := none } else item) 0 s.results }
    | .submitImages i img => applyImageAt i img s
    | .pollResolved i isDone images =>
        match isDone, images with
        | true, img :: _ => applyImageAt i img s
        | _, _ => s
    | .taskError i msg =>
        { s with
          results := mapWithIndex (fun j item =>
            if j = i then { item with status := .error, error := some msg } else item) 0 s.results,
          statusMessage := msg }
    | .queueDone => { s with statusMessage := "Completed." }
    | .queueFinally => { s with isRunning := false }
  else s

/-- An observable event on the shared state: either a new run starts
(`startBatch`'s synchronous prefix) or a pending continuation of some run
resumes. -/
inductive Event where
  | start (payload : String) (ids : ℕ → String)
  | cont (c : Cont) (captured : ℕ)

def step (s : AppState) : Event → AppState
  | .start payload ids => startBatchInit payload ids s
  | .cont c e => runCont c e s

def runEvents (s : AppState) (evs : List Event) : AppState := evs.foldl step s

theorem runCont_runId (c : Cont) (e : ℕ) (s : AppState) : (runCont c e s).runId = s.runId := by
  unfold runCont
  by_cases h : s.runId = e
  · rw [if_pos h]
    cases c with
    | taskStart i => rfl
    | submitImages i img => rfl
    | pollResolved i isDone images =>
        cases isDone with
        | false => cases images <;> rfl
        | true => cases images <;> rfl
    | taskError i msg => rfl
    | queueDone => rfl
    | queueFinally => rfl
  · rw [if_neg h]

theorem step_runId_mono (s : AppState) (ev : Event) : s.runId ≤ (step s ev).runId := by
  cases ev with
  | start payload ids =>
      simp only [step, startBatchInit]
      by_cases h : payload = ""
      · rw [if_pos h]
      · rw [if_neg h]
        exact Nat.le_succ _
  | cont c e =>
      simp only [step]
      rw [runCont_runId]

theorem runEvents_runId_mono (evs : List Event) : ∀ s : AppState,
    s.runId ≤ (runEvents s evs).runId := by
  induction evs with
  | nil => intro s; exact le_rfl
  | cons ev tl ih =>
      intro s
      exact le_trans (step_runId_mono s ev) (ih (step s ev))

/-! ## Theorems about snapToNearest -/

/-- The fold underlying `snapToNearest`: the result splits the scanned list
as `l₁ ++ result :: l₂` where the result attains the minimum distance to
`value` and everything enumerated before it is strictly farther. -/
theorem foldl_snapF_spec (value : ℚ) (l : List ℚ) : ∀ a : ℚ,
    ∃ l₁ l₂, a :: l = l₁ ++ (l.foldl (snapF value) a) :: l₂ ∧
      (∀ o ∈ a :: l, |l.foldl (snapF value) a - value| ≤ |o - value|) ∧
      (∀ o ∈ l₁, |l.foldl (snapF value) a - value| < |o - value|) := by
  induction l with
  | nil =>
      intro a
      refine ⟨[], [], rfl, ?_, ?_⟩
      · intro o ho
        rw [List.mem_singleton] at ho
        rw [ho, List.foldl_nil]
      · intro o ho
        exact absurd ho (List.not_mem_nil o)
  | cons x xs ih =>
      intro a
      rw [List.foldl_cons]
      by_cases hlt : |x - value| < |a - value|
      · have hfa : snapF value a x = x := if_pos hlt
        rw [hfa]
        obtain ⟨l₁, l₂, heq, hmin, hstrict⟩ := ih x
        have hrx : |xs.foldl (snapF value) x - value| ≤ |x - value| :=
          hmin x (List.mem_cons_self x xs)
        refine ⟨a :: l₁, l₂, ?_, ?_, ?_⟩
        · rw [List.cons_append, ← heq]
        · intro o ho
          rcases List.mem_cons.mp ho with rfl | ho'
          · exact le_of_lt (lt_of_le_of_lt hrx hlt)
          · exact hmin o ho'
        · intro o ho
          rcases List.mem_cons.mp ho with rfl | ho'
          · exact lt_of_le_of_lt hrx hlt
          · exact hstrict o ho'
      · have hfa : snapF value a x = a := if_neg hlt
        rw [hfa]
        have hax : |a - value| ≤ |x - value| := le_of_not_lt hlt
        obtain ⟨l₁, l₂, heq, hmin, hstrict⟩ := ih a
        cases l₁ with
        | nil =>
            rw [List.nil_append] at heq
            injection heq with h1 h2
            refine ⟨[], x :: xs, ?_, ?_, ?_⟩
            · rw [List.nil_append, ← h1]
            · intro o ho
              rcases List.mem_cons.mp ho with rfl | ho'
              · rw [← h1]
              · rcases List.mem_cons.mp ho' with rfl | ho''
                · rw [← h1]
                  exact hax
                · exact hmin o (List.mem_cons_of_mem a ho'')
            · intro o ho
              exact absurd ho (List.not_mem_nil o)
        | cons b t =>
            rw [List.cons_append] at heq
            injection heq with h1 h2
            have hra : |xs.foldl (snapF value) a - value| < |a - value| := by
              refine hstrict a ?_
              rw [h1]
              exact List.mem_cons_self b t
            refine ⟨a :: x :: t, l₂, ?_, ?_, ?_⟩
            · rw [List.cons_append, List.cons_append]
              exact congrArg (fun ys => a :: x :: ys) h2
            · intro o ho
              rcases List.mem_cons.mp ho with rfl | ho'
              · exact le_of_lt hra
              · rcases List.mem_cons.mp ho' with rfl | ho''
                · exact le_of_lt (lt_of_lt_of_le hra hax)
                · exact hmin o (List.mem_cons_of_mem a ho'')
            · intro o ho
              rcases List.mem_cons.mp ho with rfl | ho'
              · exact hra
              · rcases List.mem_cons.mp ho' with rfl | ho''
                · exact lt_of_lt_of_le hra hax
                · exact hstrict o (List.mem_cons_of_mem b ho'')

/-- The snapped value is a member of the option list. -/
theorem snapToNearest_mem (value : ℚ) (opts : List ℚ) (r : ℚ)
    (h : snapToNearest value opts = some r) : r ∈ opts := by
  cases opts with
  | nil => exact absurd h (by simp [snapToNearest])
  | cons a l =>
      obtain ⟨l₁, l₂, heq, hmin, hstrict⟩ := foldl_snapF_spec value l a
      have hr : r = l.foldl (snapF value) a := by
        simpa [snapToNearest] using h.symm
      rw [hr, heq]
      exact List.mem_append.mpr (Or.inr (List.mem_cons_self _ _))

/-- The snapped value minimizes the distance to the input. -/
theorem snapToNearest_min (value : ℚ) (opts : List ℚ) (r : ℚ)
    (h : snapToNearest value opts = some r) : ∀ o ∈ opts, |r - value| ≤ |o - value| := by
  cases opts with
  | nil => exact absurd h (by simp [snapToNearest])
  | cons a l =>
      obtain ⟨l₁, l₂, heq, hmin, hstrict⟩ := foldl_snapF_spec value l a
      have hr : r = l.foldl (snapF value) a := by
        simpa [snapToNearest] using h.symm
      rw [hr]
      exact hmin

/-- Snapping a value that is itself an option returns it unchanged. -/
theorem snapToNearest_self (v : ℚ) (opts : List ℚ) (hv : v ∈ opts) :
    snapToNearest v opts = some v := by
  cases opts with
  | nil => exact absurd hv (List.not_mem_nil v)
  | cons a l =>
      obtain ⟨l₁, l₂, heq, hmin, hstrict⟩ := foldl_snapF_spec v l a
      have h0 : |l.foldl (snapF v) a - v| ≤ |v - v| := hmin v hv
      rw [sub_self, abs_zero] at h0
      have h0' : |l.foldl (snapF v) a - v| = 0 := le_antisymm h0 (abs_nonneg _)
      have : l.foldl (snapF v) a = v := by
        have := abs_eq_zero.mp h0'
        linarith [this]
      rw [snapToNearest, this]

theorem find?_drop_front {α : Type} (p : α → Bool) (l₁ : List α) : ∀ rest : List α,
    (∀ o ∈ l₁, p o = false) → List.find? p (l₁ ++ rest) = List.find? p rest := by
  induction l₁ with
  | nil => intro rest _; rw [List.nil_append]
  | cons b t ih =>
      intro rest h
      have hb : ¬p b = true := by
        rw [h b (List.mem_cons_self b t)]
        exact Bool.false_ne_true
      rw [List.cons_append, List.find?_cons_of_neg _ hb]
      exact ih rest (fun o ho => h o (List.mem_cons_of_mem b ho))

/-- C5: for every input value and every non-empty preset list,
`snapToNearest` returns exactly the first element of the list (in
enumeration order) that minimizes the absolute distance to the input — a
preset at minimal distance, with exact-distance ties broken in favor of the
earliest-enumerated preset. -/
theorem snapToNearest_first_nearest (value : ℚ) (opts : List ℚ) (h : opts ≠ []) :
    snapToNearest value opts =
      opts.find? (fun o => opts.all (fun o2 => decide (|o - value| ≤ |o2 - value|))) := by
  cases opts with
  | nil => exact absurd rfl h
  | cons a l =>
      obtain ⟨l₁, l₂, heq, hmin, hstrict⟩ := foldl_snapF_spec value l a
      have hrmem : l.foldl (snapF value) a ∈ a :: l := by
        rw [heq]
        exact List.mem_append.mpr (Or.inr (List.mem_cons_self _ _))
      have key : ∀ P : ℚ → Bool, (∀ o ∈ l₁, P o = false) → P (l.foldl (snapF value) a) = true →
          List.find? P (a :: l) = some (l.foldl (snapF value) a) := by
        intro P h1 h2
        rw [heq, find?_drop_front P l₁ _ h1, List.find?_cons_of_pos _ h2]
      have hfail : ∀ o ∈ l₁,
          (a :: l).all (fun o2 => decide (|o - value| ≤ |o2 - value|)) = false := by
        intro o ho
        rw [Bool.eq_false_iff]
        intro hall
        rw [List.all_eq_true] at hall
        have h1 := hall _ hrmem
        rw [decide_eq_true_eq] at h1
        exact absurd h1 (not_le.mpr (hstrict o ho))
      have hpos :
          (a :: l).all (fun o2 => decide (|l.foldl (snapF value) a - value| ≤ |o2 - value|)) =
            true := by
        rw [List.all_eq_true]
        intro o ho
        exact decide_eq_true (hmin o ho)
      rw [key (fun o => (a :: l).all (fun o2 => decide (|o - value| ≤ |o2 - value|))) hfail hpos]
      rfl

/-- C5 witness: snapping the exact midpoint between the first two azimuth
presets through the preset table. -/
theorem snapToNearest_first_nearest_witness :
    snapToNearest (45/2) ANGLE_PRESETS =
      ANGLE_PRESETS.find?
        (fun o => ANGLE_PRESETS.all (fun o2 => decide (|o - (45/2)| ≤ |o2 - (45/2)|))) :=
  snapToNearest_first_nearest (45/2) ANGLE_PRESETS (by simp [ANGLE_PRESETS, AZIMUTH_MAP])

/-- C6: preset snapping is idempotent — a value already in the preset list
snaps to itself, and hence snapping a snapped value changes nothing. -/
theorem snapToNearest_idempotent :
    (∀ (v : ℚ) (opts : List ℚ), v ∈ opts → snapToNearest v opts = some v) ∧
    ∀ (v : ℚ) (opts : List ℚ), opts ≠ [] →
      ∃ r, snapToNearest v opts = some r ∧ snapToNearest r opts = some r := by
  refine ⟨snapToNearest_self, ?_⟩
  intro v opts h
  cases hr : snapToNearest v opts with
  | none =>
      cases opts with
      | nil => exact absurd rfl h
      | cons a l => exact absurd hr (by simp [snapToNearest])
  | some r =>
      exact ⟨r, rfl, snapToNearest_self r opts (snapToNearest_mem v opts r hr)⟩

/-- C6 witness: the azimuth preset 45 snaps to itself. -/
theorem snapToNearest_idempotent_witness :
    snapToNearest 45 ANGLE_PRESETS = some 45 :=
  snapToNearest_idempotent.1 45 ANGLE_PRESETS (by simp [ANGLE_PRESETS, AZIMUTH_MAP])

/-! ## Theorems about runQueue -/

/-- C2: for every list of tasks and every positive concurrency ceiling,
when `runQueue`'s promise resolves (all workers have returned: none idle,
none running a task), the multiset of completed task indices is exactly
`0, …, n-1`, each exactly once — every task ran exactly once, and
resolution implies all tasks completed.  The atomicity of the
claim-and-increment is built into the `QStep.claim_run`/`claim_exit`
transitions, which read and bump the cursor in one step. -/
theorem runQueue_runs_each_task_exactly_once (c : ℤ) (n : ℕ) (hc : 1 ≤ c)
    {s : QState} (hreach : Relation.ReflTransGen (QStep n) (initQ c) s)
    (hidle : s.idle = 0) (hrun : s.running = 0) :
    s.finished = Multiset.range n ∧ ∀ i, i < n → s.finished.count i = 1 := by
  obtain ⟨h1, h2, h3⟩ := qinv_reachable hreach
  have hw := workers_pos c
  have hcard : Multiset.card s.running = 0 := by
    rw [hrun]
    rfl
  have hcur : n ≤ s.cursor := by omega
  have hfin : s.finished = Multiset.range n := by
    rw [hrun, add_zero, min_eq_right hcur] at h3
    exact h3
  refine ⟨hfin, ?_⟩
  intro i hi
  rw [hfin]
  exact Multiset.count_eq_one_of_mem (Multiset.nodup_range n) (Multiset.mem_range.mpr hi)

/-- A three-step complete run of one task with one worker:
claim task 0, finish it, claim past the end and exit. -/
theorem trace_one_worker_one_task :
    Relation.ReflTransGen (QStep 1) (⟨0, 1, 0, 0, 0⟩ : QState) ⟨2, 0, 0, 1, {0}⟩ := by
  have s1 : QStep 1 (⟨0, 1, 0, 0, 0⟩ : QState) ⟨1, 0, {0}, 0, 0⟩ :=
    QStep.claim_run (Nat.zero_lt_one) (Nat.zero_lt_one)
  have s2 : QStep 1 (⟨1, 0, {0}, 0, 0⟩ : QState) ⟨1, 1, 0, 0, {0}⟩ :=
    QStep.finish 0 (Multiset.mem_cons_self 0 0)
  have s3 : QStep 1 (⟨1, 1, 0, 0, {0}⟩ : QState) ⟨2, 0, 0, 1, {0}⟩ :=
    QStep.claim_exit (Nat.zero_lt_one) (le_refl 1)
  exact Relation.ReflTransGen.head s1 (Relation.ReflTransGen.head s2
    (Relation.ReflTransGen.head s3 Relation.ReflTransGen.refl))

theorem initQ_one : initQ 1 = (⟨0, 1, 0, 0, 0⟩ : QState) := by
  unfold initQ workers
  rw [max_self]
  rfl

/-- C2 witness: one worker, one task, run to completion. -/
theorem runQueue_runs_each_task_exactly_once_witness :
    (⟨2, 0, 0, 1, {0}⟩ : QState).finished = Multiset.range 1 ∧
      ∀ i, i < 1 → Multiset.count i (⟨2, 0, 0, 1, {0}⟩ : QState).finished = 1 :=
  runQueue_runs_each_task_exactly_once 1 1 le_rfl (initQ_one ▸ trace_one_worker_one_task) rfl rfl

/-- C3: with ceiling `c ≥ 1`, no reachable state of `runQueue` has more
than `c` tasks started-but-unresolved simultaneously: a worker only claims
a new index after the task it awaited resolved (`QStep.finish` is the only
transition returning a worker to the claiming loop), so in-flight tasks
never outnumber the `max(1, c) = c` workers. -/
theorem runQueue_never_exceeds_ceiling (c : ℤ) (n : ℕ) (hc : 1 ≤ c)
    {s : QState} (hreach : Relation.ReflTransGen (QStep n) (initQ c) s) :
    (Multiset.card s.running : ℤ) ≤ c := by
  obtain ⟨h1, _, _⟩ := qinv_reachable hreach
  have hcard : Multiset.card s.running ≤ workers c := by omega
  unfold workers at hcard
  rw [max_eq_right hc] at hcard
  omega

theorem initQ_three : initQ 3 = (⟨0, 3, 0, 0, 0⟩ : QState) := by
  unfold initQ workers
  rw [max_eq_right (by norm_num : (1 : ℤ) ≤ 3)]
  rfl

/-- C3 witness: ceiling 3, one task claimed, one task in flight. -/
theorem runQueue_never_exceeds_ceiling_witness :
    (Multiset.card (⟨1, 2, {0}, 0, 0⟩ : QState).running : ℤ) ≤ 3 := by
  refine runQueue_never_exceeds_ceiling 3 1 (by norm_num) ?_
  rw [initQ_three]
  exact Relation.ReflTransGen.head
    (QStep.claim_run (by norm_num) (Nat.zero_lt_one)) Relation.ReflTransGen.refl

/-- C10: a non-positive concurrency ceiling still launches exactly one
worker (`Math.max(1, c)`), so execution is sequential (never more than one
task in flight) and a completed run still finished every task exactly
once. -/
theorem runQueue_tolerates_nonpositive_ceiling (c : ℤ) (n : ℕ) (hc : c ≤ 0) :
    workers c = 1 ∧
    ∀ s : QState, Relation.ReflTransGen (QStep n) (initQ c) s →
      Multiset.card s.running ≤ 1 ∧
      (s.idle = 0 → s.running = 0 → s.finished = Multiset.range n) := by
  have hw : workers c = 1 := by
    unfold workers
    rw [max_eq_left (le_trans hc zero_le_one)]
    rfl
  refine ⟨hw, ?_⟩
  intro s hreach
  obtain ⟨h1, h2, h3⟩ := qinv_reachable hreach
  rw [hw] at h1
  constructor
  · omega
  · intro hidle hrun
    have hcard : Multiset.card s.running = 0 := by
      rw [hrun]
      rfl
    have hcur : n ≤ s.cursor := by omega
    rw [hrun, add_zero, min_eq_right hcur] at h3
    exact h3

theorem initQ_neg_two : initQ (-2) = (⟨0, 1, 0, 0, 0⟩ : QState) := by
  unfold initQ workers
  rw [max_eq_left (by norm_num : (-2 : ℤ) ≤ 1)]
  rfl

/-- C10 witness: ceiling -2 spawns a single worker, which still runs the
one task to completion. -/
theorem runQueue_tolerates_nonpositive_ceiling_witness :
    workers (-2) = 1 ∧ (⟨2, 0, 0, 1, {0}⟩ : QState).finished = Multiset.range 1 := by
  have h := runQueue_tolerates_nonpositive_ceiling (-2) 1 (by norm_num)
  exact ⟨h.1, ((h.2 _ (initQ_neg_two ▸ trace_one_worker_one_task)).2) rfl rfl⟩

/-! ## Theorems about pollJob and submitAngle -/

theorem pollLoop_exhausts (resp : ℕ → HttpResp) (cur : ℕ → ℕ) (runId : ℕ)
    (hok : ∀ i, (resp i).ok = true)
    (himg : ∀ i, extractImageList (resp i).body = [])
    (hfail : ∀ i, hasFail (statusOf (resp i).body) = false) (hcur : ∀ i, cur i = runId) :
    ∀ (fuel i a : ℕ), pollLoop resp cur runId i a fuel = (.thrown "Render timed out.", a + fuel) := by
  intro fuel
  induction fuel with
  | zero => intro i a; rfl
  | succ fuel ih =>
      intro i a
      rw [pollLoop, if_neg (not_not_intro (hcur i))]
      rw [if_neg (by rw [hok i]; decide)]
      rw [if_neg (by rw [hfail i]; decide)]
      rw [if_neg (by rw [himg i]; decide)]
      rw [ih (i + 1) (a + 1)]
      have harith : a + 1 + fuel = a + (fuel + 1) := by omega
      rw [harith]

/-- C4: against a status endpoint that never yields an extractable image
and never reports a failure-marked status (while the run stays current and
the endpoint answers with HTTP-success bodies), `pollJob` performs exactly
its budget of 120 status requests — never a 121st — and then fails with
the timeout error `Render timed out.` instead of looping forever. -/
theorem pollJob_times_out_within_budget (resp : ℕ → HttpResp) (cur : ℕ → ℕ) (runId : ℕ)
    (hok : ∀ i, (resp i).ok = true)
    (himg : ∀ i, extractImageList (resp i).body = [])
    (hfail : ∀ i, hasFail (statusOf (resp i).body) = false) (hcur : ∀ i, cur i = runId) :
    pollJob resp cur runId = (.thrown "Render timed out.", 120) := by
  rw [pollJob, pollLoop_exhausts resp cur runId hok himg hfail hcur 120 0 0]

def demoPollBody : JVal := .jobj [("status", .jstr "IN_PROGRESS")]

/-- C4 witness: an endpoint forever answering `{status: "IN_PROGRESS"}`. -/
theorem pollJob_times_out_within_budget_witness :
    pollJob (fun _ => ⟨true, demoPollBody⟩) (fun _ => 7) 7 =
      (.thrown "Render timed out.", 120) :=
  pollJob_times_out_within_budget _ _ _ (fun _ => rfl) (fun _ => rfl) (fun _ => rfl)
    (fun _ => rfl)

/-- C7: `submitAngle` with an empty image payload fails with
`Image is missing.` and sends no request at all to the render endpoint —
the rejection happens before the fetch, whatever the prompt, the render
parameters and whatever the endpoint would have answered. -/
theorem submitAngle_rejects_empty_payload (anglePrompt : String) (p : RenderParams)
    (res : HttpResp) :
    submitAngle anglePrompt "" p res = (.error "Image is missing.", []) := rfl

/-! ## Theorems about findNearestImageIndex -/

/-- The `[done, queued, queued, done]` results list of the spec scenario. -/
def demoResults : List AngleResult :=
  [{ id := "a0", azimuth := 0, elevation := 0, distance := 1, status := .done,
     image := some "data:a" },
   { id := "a1", azimuth := 45, elevation := 0, distance := 1, status := .queued },
   { id := "a2", azimuth := 90, elevation := 0, distance := 1, status := .queued },
   { id := "a3", azimuth := 135, elevation := 0, distance := 1, status := .done,
     image := some "data:d" }]

/-- C8: on `[done, queued, queued, done]` with selection index 1 the
displayed index resolves to 0 or 3 (the radial search tries offset 1 right
— index 2, no image — then offset 1 left — index 0, image — so 0 wins) and
never to 1 or 2; and whenever the selected entry itself has an image, its
own index is returned. -/
theorem findNearestImageIndex_fallback :
    (findNearestImageIndex 1 demoResults = 0 ∨ findNearestImageIndex 1 demoResults = 3) ∧
    findNearestImageIndex 1 demoResults ≠ 1 ∧ findNearestImageIndex 1 demoResults ≠ 2 ∧
    ∀ (items : List AngleResult) (i : ℕ) (hlen : i < items.length),
      hasImageAt items (i : ℤ) = true → findNearestImageIndex (i : ℤ) items = (i : ℤ) := by
  refine ⟨Or.inl (by decide), by decide, by decide, ?_⟩
  intro items i hlen himg
  unfold findNearestImageIndex
  rw [if_neg (by omega), if_pos himg]

/-- C8 witness: a selected entry that already has an image keeps its own
index. -/
theorem findNearestImageIndex_fallback_witness :
    findNearestImageIndex ((0 : ℕ) : ℤ) demoResults = ((0 : ℕ) : ℤ) :=
  findNearestImageIndex_fallback.2.2.2 demoResults 0 (by decide) (by decide)

/-! ## Theorems about startBatch and epoch supersession -/

theorem makeResults_length (ids : ℕ → String) : ∀ (k : ℕ) (vs : List AngleView),
    (makeResults ids k vs).length = vs.length := by
  intro k vs
  induction vs generalizing k with
  | nil => rfl
  | cons v rest ih => simp [makeResults, ih]

theorem makeResults_getElem (ids : ℕ → String) : ∀ (vs : List AngleView) (k i : ℕ)
    (hi : i < vs.length) (hr : i < (makeResults ids k vs).length),
    (makeResults ids k vs)[i] =
      { id := ids (k + i), azimuth := vs[i].azimuth, elevation := vs[i].elevation,
        distance := vs[i].distance, status := Status.queued, image := none, seed := none,
        error := none } := by
  intro vs
  induction vs with
  | nil =>
      intro k i hi
      exact absurd hi (Nat.not_lt_zero i)
  | cons v rest ih =>
      intro k i hi hr
      cases i with
      | zero => simp [makeResults]
      | succ j =>
          have hj : j < rest.length := Nat.lt_of_succ_lt_succ hi
          have hr' : j < (makeResults ids (k + 1) rest).length := by
            rw [makeResults_length]
            exact hj
          have hstep : (makeResults ids k (v :: rest))[j + 1] =
              (makeResults ids (k + 1) rest)[j] := by
            simp [makeResults]
          rw [hstep, ih (k + 1) j hj hr']
          have harith : k + 1 + j = k + (j + 1) := by omega
          rw [harith]
          simp

/-- C9: starting a run with a non-empty payload bumps the run epoch by
exactly one and resets the result list to exactly one record per azimuth
preset, in preset enumeration order, each `queued` with no image and no
error, with the selection reset to 0 — all in the synchronous prefix of
`startBatch`, i.e. before any task is built or dispatched. -/
theorem startBatch_resets (payload : String) (ids : ℕ → String) (s : AppState)
    (h : payload ≠ "") :
    (startBatchInit payload ids s).runId = s.runId + 1 ∧
    (startBatchInit payload ids s).results.length = ANGLE_PRESETS.length ∧
    (startBatchInit payload ids s).selectedIndex = 0 ∧
    ∀ (i : ℕ) (hi : i < ANGLE_PRESETS.length)
      (hr : i < (startBatchInit payload ids s).results.length),
      (startBatchInit payload ids s).results[i] =
        { id := ids i, azimuth := ANGLE_PRESETS[i], elevation := s.elevation,
          distance := s.distance, status := Status.queued, image := none, seed := none,
          error := none } := by
  have hres : (startBatchInit payload ids s).results = makeResults ids 0 (buildViews s) := by
    simp [startBatchInit, h]
  have hviews : (buildViews s).length = ANGLE_PRESETS.length := by
    simp [buildViews]
  refine ⟨by simp [startBatchInit, h], ?_, by simp [startBatchInit, h], ?_⟩
  · rw [hres, makeResults_length, hviews]
  · intro i hi hr
    have hv : i < (buildViews s).length := by
      rw [hviews]
      exact hi
    have hm : i < (makeResults ids 0 (buildViews s)).length := by
      rw [makeResults_length, hviews]
      exact hi
    have hcast : (startBatchInit payload ids s).results[i] =
        (makeResults ids 0 (buildViews s))[i] := by
      congr 1
    rw [hcast, makeResults_getElem ids (buildViews s) 0 i hv hm]
    have hview : (buildViews s)[i] =
        (⟨ANGLE_PRESETS[i], s.elevation, s.distance⟩ : AngleView) := by
      simp [buildViews]
    rw [hview]
    simp

/-- A placeholder application state used to instantiate the theorems on
concrete inputs. -/
def demoState : AppState :=
  { runId := 0, results := [], selectedIndex := 0, statusMessage := "", isRunning := false,
    elevation := 20, distance := 1, prompt := "p" }

/-- C9 witness: starting a run from the demo state with payload `abc`. -/
theorem startBatch_resets_witness :
    (startBatchInit "abc" (fun _ => "id") demoState).runId = demoState.runId + 1 ∧
    (startBatchInit "abc" (fun _ => "id") demoState).results.length = ANGLE_PRESETS.length :=
  ⟨(startBatch_resets "abc" (fun _ => "id") demoState (by decide)).1,
   (startBatch_resets "abc" (fun _ => "id") demoState (by decide)).2.1⟩

/-- C1: once a run is superseded (its captured epoch `e` is below the
current `runId` of some state `s`, as happens the moment a new run bumps
the epoch), every late-arriving continuation of that run — task start,
after-submit, after-poll, catch handler, queue join — is a no-op on the
shared state, no matter how many further events (new runs, other
continuations) happen in between: the epoch only ever grows, so the
continuation's leading `runIdRef.current !== runId` check can never again
pass, and the results list, status message, selection and the rest of the
state are left exactly as they were. -/
theorem epoch_supersession (s : AppState) (evs : List Event) (c : Cont) (e : ℕ)
    (hsup : e < s.runId) : runCont c e (runEvents s evs) = runEvents s evs := by
  have hmono : s.runId ≤ (runEvents s evs).runId := runEvents_runId_mono evs s
  have hne : ¬(runEvents s evs).runId = e := by omega
  unfold runCont
  rw [if_neg hne]

/-- The demo state after one run has started and a second one bumped the
epoch to 2. -/
def demoState2 : AppState :=
  { runId := 2, results := [], selectedIndex := 0, statusMessage := "Rendering 8 angles...",
    isRunning := true, elevation := 20, distance := 1, prompt := "p" }

/-- C1 witness: a late after-submit continuation of run 1 arriving after
the epoch reached 2 changes nothing. -/
theorem epoch_supersession_witness :
    runCont (Cont.submitImages 0 "data:x") 1 (runEvents demoState2 []) =
      runEvents demoState2 [] :=
  epoch_supersession demoState2 [] (Cont.submitImages 0 "data:x") 1 (by decide)

end Cam
